import Mathlib

/-!  Verification development for the similarity engine (src/main.rs).

The Rust program computes item-to-item cosine similarity over `Vec<i32>`
rating vectors and returns the top-5 most similar catalog items for a
query identifier.  This file gives a shallow embedding of that program:

* `i32` arithmetic is embedded as `Int` together with an explicit
  two's-complement wrap `wrap32` applied at every multiplication and
  addition, matching release-mode overflow semantics (`x * y` and the
  running `sum()` both wrap modulo 2^32).
* `f64` values are embedded exactly: every float the program ever
  produces has the form `q * sqrt n` with `q` rational and `n` natural
  (integer-to-float conversion is exact for `i32`, and the only float
  operations used are `sqrt` of an integer value, multiplication,
  division, the `== 0.0` test and `partial_cmp`).  The embedding `F64`
  stores that exact value, plus a `nan` constructor for the IEEE NaN
  produced by `sqrt` of a negative (overflow-wrapped) sum.  Rounding of
  `sqrt`, `*` and `/` is not modelled inside `F64`: its arithmetic is
  exact.  Where a claim hinges on IEEE rounding itself (the exact
  `== 1.0` self-similarity), the actual binary64 round-to-nearest steps
  are pinned down separately by the `isNearestSqrt` / `isNearestFrac`
  predicates and their `_spec` readings over ℝ.
* The two `panic!`/`expect` aborts are embedded as `Except` errors
  (`lengthMismatch` for the rating-length check, `notFound` for a
  missing query identifier), as the spec's error taxonomy names them.
* `slice::sort_by` is a stable sort; it is embedded as a stable
  insertion sort `isort` using the comparator-derived relation
  `sortLe a b = (cmp a b ≠ .gt)`.  For the total preorders produced by
  the comparator every stable sort yields the same list.
-/

/-- Two's-complement wrap of an integer into the `i32` range
`[-2^31, 2^31)`; this is what release-mode Rust `i32` arithmetic does on
overflow. -/
def wrap32 (x : Int) : Int := (x + 2147483648) % 4294967296 - 2147483648

/-- Wrapping `i32` multiplication. -/
def i32mul (x y : Int) : Int := wrap32 (x * y)

/-- Wrapping `i32` addition (one step of `Iterator::sum`). -/
def i32add (x y : Int) : Int := wrap32 (x + y)

/-- Exact model of the `f64` values arising in the program:
`sq num den n` stands for the real number `(num/den) * sqrt n`
(an unnormalized integer fraction times the square root of a natural
number), and `nan` is the IEEE NaN produced by `sqrt` of a negative
number.  Every float the program builds has this shape, because the
only float operations used are exact `i32`-to-`f64` conversion, `sqrt`
of an integer value, `*`, `/`, the `== 0.0` test and `partial_cmp`.
Arithmetic is exact (rounding is not modelled).  The denominator is
nonzero whenever the value was produced by the program's operations. -/
inductive F64 where
  | nan : F64
  | sq : Int → Int → ℕ → F64
deriving DecidableEq

/-- Interpretation of an `F64` as a real number (NaN is sent to the
junk value 0; every theorem using `toReal` keeps `≠ nan` alongside). -/
noncomputable def F64.toReal : F64 → ℝ
  | .nan => 0
  | .sq num den n => (num : ℝ) / (den : ℝ) * Real.sqrt (n : ℝ)

/-- The float literal `0.0`. -/
def F64.zero : F64 := .sq 0 1 1

/-- `f64::from(i32)`: exact conversion. -/
def F64.ofInt (d : Int) : F64 := .sq d 1 1

/-- `f64::sqrt` applied to an exactly-integer float: NaN on negative
input, otherwise the exact square root. -/
def F64.sqrtInt (s : Int) : F64 := if s < 0 then .nan else .sq 1 1 s.toNat

/-- `f64` multiplication: NaN propagates;
`(a/b)*sqrt m * ((c/d)*sqrt n) = (a*c)/(b*d) * sqrt (m*n)` exactly. -/
def F64.mul : F64 → F64 → F64
  | .sq a b m, .sq c d n => .sq (a * c) (b * d) (m * n)
  | _, _ => .nan

/-- `f64` division: NaN propagates; for a nonzero divisor
`((a/b)*sqrt m) / ((c/d)*sqrt n) = (a*d)/(b*c*n) * sqrt (m*n)`
exactly.  Division by an exact zero is mapped to NaN; the program never
divides by zero (the zero-magnitude guard runs first). -/
def F64.div : F64 → F64 → F64
  | .sq a b m, .sq c d n =>
      if c = 0 ∨ n = 0 then .nan else .sq (a * d) (b * c * (n : Int)) (m * n)
  | _, _ => .nan

/-- The `== 0.0` test: false on NaN, and `(num/den)*sqrt n = 0` iff
`num = 0` or `n = 0` (the denominator is nonzero by construction). -/
def F64.isZero : F64 → Bool
  | .nan => false
  | .sq num _den n => decide (num = 0) || decide (n = 0)

/-- Signed-square comparison key: for the value `v = (a/b)*sqrt n`,
`skey a b n = sign(v) * v^2 * b^2 = sign(a*b) * a^2 * n`.  The map
`x ↦ sign(x)*x^2` is strictly monotone on ℝ, so comparing keys scaled
by the (positive) squares of the opposite denominators compares the
values. -/
def F64.skey (a b : Int) (n : ℕ) : Int :=
  if a * b < 0 then -(a * a * (n : Int)) else a * a * (n : Int)

/-- Three-way comparison of integers. -/
def cmpInt (x y : Int) : Ordering :=
  if x < y then .lt else if y < x then .gt else .eq

/-- `f64::partial_cmp`: `none` iff either side is NaN, otherwise the
exact order of the two real values (obtained by comparing signed
squares cross-multiplied by the opposite denominators squared). -/
def F64.pcmp : F64 → F64 → Option Ordering
  | .sq a1 b1 n1, .sq a2 b2 n2 =>
      some (cmpInt (F64.skey a1 b1 n1 * (b2 * b2)) (F64.skey a2 b2 n2 * (b1 * b1)))
  | _, _ => none

/-- Rust struct `Item`. -/
structure Item where
  rating : List Int
  title : String
  description : String
  id : Int
deriving DecidableEq

/-- Rust struct `Key` (attribute title and weight; never used in
scoring). -/
structure Key where
  title : String
  weight : Int
deriving DecidableEq

/-- Rust struct `Similarity`: the catalog. -/
structure Similarity where
  keys : List Key
  items : List Item
deriving DecidableEq

/-- Rust struct `SimilarityArrayObject` (the borrowed references
`against: &Item` and `title: &String` are embedded by value). -/
structure SimilarityArrayObject where
  id : Int
  against : Item
  similarity : F64
  title : String
deriving DecidableEq

/-- Error values standing for the program's two aborts. -/
inductive SimError where
  | lengthMismatch : SimError
  | notFound : Int → SimError
deriving DecidableEq

instance exceptDecEq {e a : Type} [DecidableEq e] [DecidableEq a] : DecidableEq (Except e a) :=
  fun x y =>
    match x, y with
    | .ok u, .ok v => if h : u = v then isTrue (by rw [h]) else isFalse (by simp [h])
    | .ok _, .error _ => isFalse (by simp)
    | .error _, .ok _ => isFalse (by simp)
    | .error u, .error v => if h : u = v then isTrue (by rw [h]) else isFalse (by simp [h])

/-- Helper to build an item carrying only a rating vector. -/
def mkItem (r : List Int) : Item := ⟨r, "", "", 0⟩

/-- `Similarity::create_key`. -/
def Similarity.create_key (s : Similarity) (key : Key) : Similarity :=
  ⟨s.keys ++ [key], s.items⟩

/-- `Similarity::create_item`. -/
def Similarity.create_item (s : Similarity) (item : Item) : Similarity :=
  ⟨s.keys, s.items ++ [item]⟩

/-- The wrapped sum of wrapped pairwise products computed by
`Similarity::dot_product` after its length check:
`.iter().zip(...).map(|(&x,&y)| x*y).sum()`. -/
def dotRaw (a b : List Int) : Int :=
  ((a.zip b).map (fun p => i32mul p.1 p.2)).foldl i32add 0

/-- The wrapped sum of wrapped squares computed by
`Similarity::magnitude`: `.iter().map(|rating| rating*rating).sum()`. -/
def sumSquares (v : List Int) : Int :=
  (v.map (fun x => i32mul x x)).foldl i32add 0

/-- `Similarity::dot_product`: panics (here: errors) when the rating
lengths differ, otherwise the wrapped `i32` sum of products. -/
def Similarity.dot_product (_s : Similarity) (item_1 item_2 : Item) : Except SimError Int :=
  if item_1.rating.length ≠ item_2.rating.length then .error .lengthMismatch
  else .ok (dotRaw item_1.rating item_2.rating)

/-- `Similarity::magnitude`: `f64::from(sum of squared ratings).sqrt()`.
The `i32` sum can wrap to a negative value, in which case `sqrt`
returns NaN. -/
def Similarity.magnitude (_s : Similarity) (item : Item) : F64 :=
  F64.sqrtInt (sumSquares item.rating)

/-- `Similarity::cosine_similarity`: dot product divided by the product
of magnitudes, with `0.0` returned when either magnitude `== 0.0`. -/
def Similarity.cosine_similarity (s : Similarity) (item_1 item_2 : Item) : Except SimError F64 :=
  match s.dot_product item_1 item_2 with
  | .error e => .error e
  | .ok d =>
      if (s.magnitude item_1).isZero || (s.magnitude item_2).isZero then .ok F64.zero
      else .ok (F64.div (F64.ofInt d) (F64.mul (s.magnitude item_1) (s.magnitude item_2)))

/-- The comparator closure passed to `sort_by`:
`b.similarity.partial_cmp(&a.similarity).unwrap_or(Equal)` (descending
order; incomparable pairs count as equal). -/
def rustCmp (a b : SimilarityArrayObject) : Ordering :=
  (F64.pcmp b.similarity a.similarity).getD Ordering.eq

/-- The "may come first" relation induced by the comparator: `a` may
precede `b` unless the comparator orders `a` strictly after `b`. -/
def sortLe (a b : SimilarityArrayObject) : Bool :=
  !(rustCmp a b == Ordering.gt)

/-- Stable insertion into a list (kernel of the stable sort). -/
def insertLe {α : Type} (le : α → α → Bool) (x : α) : List α → List α
  | [] => [x]
  | y :: ys => if le x y then x :: y :: ys else y :: insertLe le x ys

/-- Stable insertion sort; embeds `slice::sort_by` (a stable sort — all
stable sorts agree on the total preorders the comparator produces). -/
def isort {α : Type} (le : α → α → Bool) : List α → List α
  | [] => []
  | x :: xs => insertLe le x (isort le xs)

/-- The candidate-collection loop of `get_similar`: iterate the catalog,
skip items whose id equals the query item's id, compute the cosine
similarity against the query item and collect a result record.  A panic
inside `cosine_similarity` aborts the whole loop (first error wins). -/
def computeCands (s : Similarity) (qi : Item) : List Item → Except SimError (List SimilarityArrayObject)
  | [] => .ok []
  | it :: rest =>
      if it.id == qi.id then computeCands s qi rest
      else
        match s.cosine_similarity qi it with
        | .error e => .error e
        | .ok v =>
            match computeCands s qi rest with
            | .error e => .error e
            | .ok tail => .ok (⟨it.id, it, v, it.title⟩ :: tail)

/-- `Similarity::get_similar`: find the query item by id (panic — here
`notFound` — when absent), score every other item, sort descending by
similarity with `sort_by`, and take the first 5. -/
def Similarity.get_similar (s : Similarity) (item_id : Int) : Except SimError (List SimilarityArrayObject) :=
  match s.items.find? (fun it => it.id == item_id) with
  | none => .error (.notFound item_id)
  | some item =>
      match computeCands s item s.items with
      | .error e => .error e
      | .ok cands => .ok ((isort sortLe cands).take 5)

/-- `x` lies in the `i32` range (no overflow). -/
def fitsB (x : Int) : Bool := decide (-2147483648 ≤ x) && decide (x < 2147483648)

/-- Every partial sum `acc + x1 + ... + xk` of the list stays in the
`i32` range. -/
def intermedOkFrom (acc : Int) : List Int → Bool
  | [] => true
  | x :: xs => fitsB (acc + x) && intermedOkFrom (acc + x) xs

/-- No intermediate value of `dot_product` overflows `i32`: every
pairwise product fits and every partial sum of products fits. -/
def dotFits (a b : List Int) : Bool :=
  (a.zip b).all (fun p => fitsB (p.1 * p.2)) &&
    intermedOkFrom 0 ((a.zip b).map (fun p => p.1 * p.2))

/-- No intermediate value of `magnitude`'s squared sum overflows `i32`:
every square fits and every partial sum of squares fits. -/
def sqSumFits (v : List Int) : Bool :=
  v.all (fun x => fitsB (x * x)) && intermedOkFrom 0 (v.map (fun x => x * x))

/-- The descending-order relation the spec asserts of adjacent result
pairs: `r1.similarity >= r2.similarity`, with an incomparable pair
(either side NaN) treated as equal. -/
def descPair (r1 r2 : SimilarityArrayObject) : Prop :=
  F64.pcmp r1.similarity r2.similarity = none ∨
  F64.pcmp r1.similarity r2.similarity = some Ordering.gt ∨
  F64.pcmp r1.similarity r2.similarity = some Ordering.eq

/-- Concrete three-item catalog used by witnesses. -/
def catABC : Similarity :=
  ⟨[], [⟨[1, 0], "A", "", 1⟩, ⟨[1, 1], "B", "", 2⟩, ⟨[0, 1], "C", "", 3⟩]⟩

/-- Concrete catalog with a duplicated identifier, used by the C10
witness. -/
def catDup : Similarity :=
  ⟨[], [⟨[1, 0], "A", "", 1⟩, ⟨[0, 1], "B", "", 1⟩, ⟨[1, 1], "C", "", 2⟩]⟩

/-- Concrete catalog with mismatched rating lengths, used by the C5
witness. -/
def catMix : Similarity :=
  ⟨[], [⟨[1, 0], "A", "", 1⟩, ⟨[1, 2, 3], "D", "", 2⟩]⟩


/-- `m * 2^(-e)` lies strictly within half a grid step of the rational
`num / den`: `m * 2^(-e)` is the unique (untied) round-to-nearest value
of `num / den` on the binary64 grid whose unit in the last place is
`2^(-e)`.  The inequality is `|num/den * 2^e - m| < 1/2`, cleared of
denominators; `isNearestFrac_spec` proves that reading.  Used to state
what IEEE `f64` multiplication and division actually return at a
concrete input. -/
def isNearestFrac (num den : Int) (e : ℕ) (m : Int) : Prop :=
  0 < den ∧ |2 * num * 2 ^ e - 2 * m * den| < den

/-- `m * 2^(-e)` lies strictly within half a grid step of `√x`:
`m * 2^(-e)` is the unique round-to-nearest value of `√x` on the grid
with unit in the last place `2^(-e)`.  The inequality is
`|√x * 2^e - m| < 1/2`, squared and cleared of denominators;
`isNearestSqrt_spec` proves that reading.  Used to state what IEEE
`f64::sqrt` actually returns at a concrete input. -/
def isNearestSqrt (x e : ℕ) (m : Int) : Prop :=
  0 < m ∧ (2 * m - 1) ^ 2 < 4 * (x : Int) * 4 ^ e ∧
    4 * (x : Int) * 4 ^ e < (2 * m + 1) ^ 2

/-! ## Arithmetic lemmas about the wrapped `i32` model -/

theorem wrap32_eq_self {x : Int} (h1 : -2147483648 ≤ x) (h2 : x < 2147483648) :
    wrap32 x = x := by
  unfold wrap32; omega

theorem wrap32_zero : wrap32 0 = 0 := by decide

theorem wrap32_wrap_add (x y : Int) : wrap32 (wrap32 x + y) = wrap32 (x + y) := by
  unfold wrap32; omega

theorem wrap32_range (x : Int) :
    wrap32 x % 4294967296 = x % 4294967296 ∧
    -2147483648 ≤ wrap32 x ∧ wrap32 x < 2147483648 := by
  unfold wrap32; omega

theorem foldl_i32add_wrap :
    ∀ (l : List Int) (acc : Int), l.foldl i32add (wrap32 acc) = wrap32 (acc + l.sum) := by
  intro l
  induction l with
  | nil => intro acc; simp
  | cons x xs ih =>
      intro acc
      have h1 : i32add (wrap32 acc) x = wrap32 (acc + x) := by
        unfold i32add; rw [wrap32_wrap_add]
      simp only [List.foldl_cons, h1, List.sum_cons]
      rw [ih (acc + x)]
      congr 1
      ring

theorem dotRaw_eq_wrapSum (a b : List Int) :
    dotRaw a b = wrap32 (((a.zip b).map (fun p => wrap32 (p.1 * p.2))).sum) := by
  unfold dotRaw i32mul
  rw [show (0 : Int) = wrap32 0 from wrap32_zero.symm, foldl_i32add_wrap]
  rw [zero_add]

theorem sumSquares_eq_wrapSum (v : List Int) :
    sumSquares v = wrap32 ((v.map (fun x => wrap32 (x * x))).sum) := by
  unfold sumSquares i32mul
  rw [show (0 : Int) = wrap32 0 from wrap32_zero.symm, foldl_i32add_wrap]
  rw [zero_add]

theorem zipProdWrapSum_comm :
    ∀ a b : List Int,
      ((a.zip b).map (fun p => wrap32 (p.1 * p.2))).sum =
        ((b.zip a).map (fun p => wrap32 (p.1 * p.2))).sum := by
  intro a
  induction a with
  | nil => intro b; cases b <;> simp
  | cons x xs ih =>
      intro b
      cases b with
      | nil => simp
      | cons y ys => simp [ih ys, mul_comm]

theorem dotRaw_comm (a b : List Int) : dotRaw a b = dotRaw b a := by
  rw [dotRaw_eq_wrapSum, dotRaw_eq_wrapSum, zipProdWrapSum_comm]

theorem zip_self_map (v : List Int) :
    (v.zip v).map (fun p => i32mul p.1 p.2) = v.map (fun x => i32mul x x) := by
  induction v with
  | nil => simp
  | cons x xs ih => simp [ih]

theorem dotRaw_self (v : List Int) : dotRaw v v = sumSquares v := by
  unfold dotRaw sumSquares
  rw [zip_self_map]

theorem fitsB_wrap {x : Int} (h : fitsB x = true) : wrap32 x = x := by
  unfold fitsB at h
  simp only [Bool.and_eq_true, decide_eq_true_eq] at h
  exact wrap32_eq_self h.1 h.2

theorem foldl_i32add_exact :
    ∀ (l : List Int) (acc : Int), intermedOkFrom acc l = true →
      l.foldl i32add acc = acc + l.sum := by
  intro l
  induction l with
  | nil => intro acc _; simp
  | cons x xs ih =>
      intro acc h
      unfold intermedOkFrom at h
      simp only [Bool.and_eq_true] at h
      have h1 : i32add acc x = acc + x := by unfold i32add; exact fitsB_wrap h.1
      simp only [List.foldl_cons, h1, List.sum_cons]
      rw [ih (acc + x) h.2]
      ring

theorem dotRaw_exact (a b : List Int) (h : dotFits a b = true) :
    dotRaw a b = ((a.zip b).map (fun p => p.1 * p.2)).sum := by
  unfold dotFits at h
  simp only [Bool.and_eq_true, List.all_eq_true] at h
  unfold dotRaw
  have hmap : (a.zip b).map (fun p => i32mul p.1 p.2) = (a.zip b).map (fun p => p.1 * p.2) := by
    apply List.map_congr_left
    intro p hp
    unfold i32mul
    exact fitsB_wrap (h.1 p hp)
  rw [hmap, foldl_i32add_exact _ 0 h.2, zero_add]

theorem sumSquares_exact (v : List Int) (h : sqSumFits v = true) :
    sumSquares v = (v.map (fun x => x * x)).sum := by
  unfold sqSumFits at h
  simp only [Bool.and_eq_true, List.all_eq_true] at h
  unfold sumSquares
  have hmap : v.map (fun x => i32mul x x) = v.map (fun x => x * x) := by
    apply List.map_congr_left
    intro x hx
    unfold i32mul
    exact fitsB_wrap (h.1 x hx)
  rw [hmap, foldl_i32add_exact _ 0 h.2, zero_add]

theorem sum_sq_nonneg : ∀ v : List Int, 0 ≤ (v.map (fun x => x * x)).sum := by
  intro v
  induction v with
  | nil => simp
  | cons x xs ih =>
      simp only [List.map_cons, List.sum_cons]
      have := mul_self_nonneg x
      linarith

theorem sum_sq_eq_zero_iff :
    ∀ v : List Int, ((v.map (fun x => x * x)).sum = 0 ↔ ∀ x ∈ v, x = 0) := by
  intro v
  induction v with
  | nil => simp
  | cons x xs ih =>
      simp only [List.map_cons, List.sum_cons, List.mem_cons]
      constructor
      · intro h
        have h1 : 0 ≤ x * x := mul_self_nonneg x
        have h2 : 0 ≤ (xs.map (fun x => x * x)).sum := sum_sq_nonneg xs
        have hx : x * x = 0 := by linarith
        have hxs : (xs.map (fun x => x * x)).sum = 0 := by linarith
        intro y hy
        rcases hy with rfl | hy
        · exact mul_self_eq_zero.mp hx
        · exact (ih.mp hxs) y hy
      · intro h
        have hx : x = 0 := h x (Or.inl rfl)
        have hxs : ∀ y ∈ xs, y = 0 := fun y hy => h y (Or.inr hy)
        rw [ih.mpr hxs, hx]
        ring

/-! ## Lemmas about the stable sort and the comparator -/

theorem insertLe_nil {α : Type} (le : α → α → Bool) (x : α) : insertLe le x [] = [x] := rfl

theorem insertLe_cons {α : Type} (le : α → α → Bool) (x y : α) (ys : List α) :
    insertLe le x (y :: ys) = if le x y then x :: y :: ys else y :: insertLe le x ys := rfl

theorem insertLe_perm {α : Type} (le : α → α → Bool) (x : α) :
    ∀ l : List α, (insertLe le x l).Perm (x :: l) := by
  intro l
  induction l with
  | nil => rw [insertLe_nil]
  | cons y ys ih =>
      rw [insertLe_cons]
      by_cases h : le x y = true
      · rw [if_pos h]
      · rw [if_neg h]
        exact (ih.cons y).trans (List.Perm.swap x y ys)

theorem isort_perm {α : Type} (le : α → α → Bool) :
    ∀ l : List α, (isort le l).Perm l := by
  intro l
  induction l with
  | nil => rfl
  | cons x xs ih =>
      show (insertLe le x (isort le xs)).Perm (x :: xs)
      exact (insertLe_perm le x (isort le xs)).trans (ih.cons x)

theorem chain_insertLe {α : Type} (le : α → α → Bool)
    (htot : ∀ a b, le a b = false → le b a = true) (x : α) :
    ∀ l, List.Chain' (fun a b => le a b = true) l →
      List.Chain' (fun a b => le a b = true) (insertLe le x l) := by
  intro l
  induction l with
  | nil => intro _; rw [insertLe_nil]; exact List.chain'_singleton x
  | cons y ys ih =>
      intro h
      rw [insertLe_cons]
      by_cases hxy : le x y = true
      · rw [if_pos hxy]
        exact List.chain'_cons.mpr ⟨hxy, h⟩
      · rw [if_neg hxy]
        have hxy' : le x y = false := by
          cases hv : le x y with
          | true => exact absurd hv hxy
          | false => rfl
        have hyx : le y x = true := htot x y hxy'
        cases ys with
        | nil =>
            rw [insertLe_nil]
            exact List.chain'_cons.mpr ⟨hyx, List.chain'_singleton x⟩
        | cons z zs =>
            have hyz : le y z = true := (List.chain'_cons.mp h).1
            have htail : List.Chain' (fun a b => le a b = true) (z :: zs) :=
              (List.chain'_cons.mp h).2
            have ihz := ih htail
            rw [insertLe_cons] at ihz ⊢
            by_cases hxz : le x z = true
            · rw [if_pos hxz] at ihz ⊢
              exact List.chain'_cons.mpr ⟨hyx, List.chain'_cons.mpr ⟨hxz, htail⟩⟩
            · rw [if_neg hxz] at ihz ⊢
              exact List.chain'_cons.mpr ⟨hyz, ihz⟩

theorem chain_isort {α : Type} (le : α → α → Bool)
    (htot : ∀ a b, le a b = false → le b a = true) :
    ∀ l, List.Chain' (fun a b => le a b = true) (isort le l) := by
  intro l
  induction l with
  | nil => exact List.chain'_nil
  | cons x xs ih => exact chain_insertLe le htot x (isort le xs) ih

theorem cmpInt_swap (x y : Int) : cmpInt y x = (cmpInt x y).swap := by
  rcases lt_trichotomy x y with h | h | h
  · rw [show cmpInt x y = .lt from if_pos h]
    unfold cmpInt
    rw [if_neg (by omega), if_pos h]
    rfl
  · subst h
    unfold cmpInt
    rw [if_neg (lt_irrefl x), if_neg (lt_irrefl x)]
    rfl
  · rw [show cmpInt x y = .gt by unfold cmpInt; rw [if_neg (by omega), if_pos h]]
    unfold cmpInt
    rw [if_pos h]
    rfl

theorem pcmp_swap (x y : F64) : F64.pcmp y x = (F64.pcmp x y).map Ordering.swap := by
  cases x with
  | nan => cases y <;> rfl
  | sq a1 b1 n1 =>
      cases y with
      | nan => rfl
      | sq a2 b2 n2 =>
          show some (cmpInt (F64.skey a2 b2 n2 * (b1 * b1)) (F64.skey a1 b1 n1 * (b2 * b2))) = _
          rw [cmpInt_swap]
          rfl

theorem pcmp_none_iff (x y : F64) :
    F64.pcmp x y = none ↔ (x = F64.nan ∨ y = F64.nan) := by
  cases x <;> cases y <;> simp [F64.pcmp]

theorem sortLe_total (a b : SimilarityArrayObject) (h : sortLe a b = false) :
    sortLe b a = true := by
  unfold sortLe rustCmp at h ⊢
  cases hp : F64.pcmp b.similarity a.similarity with
  | none => rw [hp] at h; exact absurd h (by decide)
  | some o =>
      rw [hp] at h
      have ho : o = Ordering.gt := by
        cases o with
        | lt => exact absurd h (by decide)
        | eq => exact absurd h (by decide)
        | gt => rfl
      subst ho
      have hswap : F64.pcmp a.similarity b.similarity = some Ordering.lt := by
        rw [pcmp_swap b.similarity a.similarity, hp]
        rfl
      rw [hswap]
      rfl

theorem sortLe_desc (a b : SimilarityArrayObject) (h : sortLe a b = true) :
    descPair a b := by
  unfold sortLe rustCmp at h
  unfold descPair
  cases hp : F64.pcmp b.similarity a.similarity with
  | none =>
      left
      rcases (pcmp_none_iff b.similarity a.similarity).mp hp with h1 | h1
      · exact (pcmp_none_iff a.similarity b.similarity).mpr (Or.inr h1)
      · exact (pcmp_none_iff a.similarity b.similarity).mpr (Or.inl h1)
  | some o =>
      have hswap : F64.pcmp a.similarity b.similarity = some o.swap := by
        rw [pcmp_swap b.similarity a.similarity, hp]
        rfl
      rw [hp] at h
      cases o with
      | lt => right; left; rw [hswap]; rfl
      | eq => right; right; rw [hswap]; rfl
      | gt => exact absurd h (by decide)

/-! ## Lemmas about cosine_similarity, the candidate loop and find? -/

theorem cosine_ok_of_len (s : Similarity) (i1 i2 : Item)
    (h : i1.rating.length = i2.rating.length) :
    s.cosine_similarity i1 i2 =
      .ok (if (s.magnitude i1).isZero || (s.magnitude i2).isZero then F64.zero
           else F64.div (F64.ofInt (dotRaw i1.rating i2.rating))
                  (F64.mul (s.magnitude i1) (s.magnitude i2))) := by
  unfold Similarity.cosine_similarity Similarity.dot_product
  rw [if_neg (by simp [h])]
  split
  · rename_i e heq
    exact absurd heq (by simp)
  · rename_i d heq
    injection heq with hd
    subst hd
    split <;> rfl

theorem cosine_err_of_len (s : Similarity) (i1 i2 : Item)
    (h : i1.rating.length ≠ i2.rating.length) :
    s.cosine_similarity i1 i2 = .error .lengthMismatch := by
  unfold Similarity.cosine_similarity Similarity.dot_product
  rw [if_pos h]

theorem cosine_err_unique (s : Similarity) (i1 i2 : Item) (e : SimError)
    (h : s.cosine_similarity i1 i2 = .error e) : e = .lengthMismatch := by
  by_cases hl : i1.rating.length = i2.rating.length
  · rw [cosine_ok_of_len s i1 i2 hl] at h
    exact absurd h (by simp)
  · rw [cosine_err_of_len s i1 i2 hl] at h
    injection h with h2
    exact h2.symm

theorem computeCands_nil (s : Similarity) (qi : Item) : computeCands s qi [] = .ok [] := rfl

theorem computeCands_cons (s : Similarity) (qi it : Item) (rest : List Item) :
    computeCands s qi (it :: rest) =
      if it.id == qi.id then computeCands s qi rest
      else
        match s.cosine_similarity qi it with
        | .error e => .error e
        | .ok v =>
            match computeCands s qi rest with
            | .error e => .error e
            | .ok tail => .ok (⟨it.id, it, v, it.title⟩ :: tail) := rfl

theorem computeCands_ok_mem (s : Similarity) (qi : Item) :
    ∀ (l : List Item) (cs : List SimilarityArrayObject), computeCands s qi l = .ok cs →
      ∀ r ∈ cs, r.id ≠ qi.id := by
  intro l
  induction l with
  | nil =>
      intro cs h r hr
      rw [computeCands_nil] at h
      injection h with h2
      subst h2
      simp at hr
  | cons it rest ih =>
      intro cs h r hr
      rw [computeCands_cons] at h
      by_cases hid : (it.id == qi.id) = true
      · rw [if_pos hid] at h
        exact ih cs h r hr
      · rw [if_neg hid] at h
        cases hcos : s.cosine_similarity qi it with
        | error e => rw [hcos] at h; exact absurd h (by simp)
        | ok v =>
            rw [hcos] at h
            cases hrest : computeCands s qi rest with
            | error e => rw [hrest] at h; exact absurd h (by simp)
            | ok tail =>
                rw [hrest] at h
                injection h with h2
                subst h2
                rcases List.mem_cons.mp hr with rfl | hr2
                · show it.id ≠ qi.id
                  intro hEq
                  exact hid (by simp [hEq])
                · exact ih tail hrest r hr2

theorem computeCands_ok_len (s : Similarity) (qi : Item) :
    ∀ l : List Item, (∀ it ∈ l, it.rating.length = qi.rating.length) →
      ∃ cs, computeCands s qi l = .ok cs ∧
        cs.length = (l.filter (fun it => !(it.id == qi.id))).length := by
  intro l
  induction l with
  | nil => intro _; exact ⟨[], rfl, by simp⟩
  | cons it rest ih =>
      intro h
      obtain ⟨cs, hcs, hlen⟩ := ih (fun x hx => h x (List.mem_cons_of_mem it hx))
      by_cases hid : (it.id == qi.id) = true
      · refine ⟨cs, ?_, ?_⟩
        · rw [computeCands_cons, if_pos hid, hcs]
        · simp [List.filter_cons, hid, hlen]
      · have hid' : (it.id == qi.id) = false := by
          cases hv : it.id == qi.id with
          | true => exact absurd hv hid
          | false => rfl
        have hlenit : qi.rating.length = it.rating.length :=
          (h it (List.mem_cons_self it rest)).symm
        obtain ⟨v, hv⟩ : ∃ v, s.cosine_similarity qi it = .ok v :=
          ⟨_, cosine_ok_of_len s qi it hlenit⟩
        refine ⟨⟨it.id, it, v, it.title⟩ :: cs, ?_, ?_⟩
        · rw [computeCands_cons, if_neg hid, hv, hcs]
        · simp [List.filter_cons, hid', hlen]

theorem computeCands_err (s : Similarity) (qi : Item) :
    ∀ l : List Item,
      (∃ it ∈ l, (it.id == qi.id) = false ∧ it.rating.length ≠ qi.rating.length) →
      computeCands s qi l = .error .lengthMismatch := by
  intro l
  induction l with
  | nil =>
      intro h
      obtain ⟨it, hmem, _⟩ := h
      simp at hmem
  | cons a rest ih =>
      intro h
      obtain ⟨it, hmem, hid, hlen⟩ := h
      rw [computeCands_cons]
      rcases List.mem_cons.mp hmem with rfl | hmem'
      · rw [if_neg (by simp [hid])]
        have hc : s.cosine_similarity qi it = .error .lengthMismatch :=
          cosine_err_of_len s qi it (fun hEq => hlen hEq.symm)
        rw [hc]
      · by_cases hida : (a.id == qi.id) = true
        · rw [if_pos hida]
          exact ih ⟨it, hmem', hid, hlen⟩
        · rw [if_neg hida]
          cases hcos : s.cosine_similarity qi a with
          | error e =>
              have he : e = .lengthMismatch := cosine_err_unique s qi a e hcos
              subst he
              rfl
          | ok v =>
              rw [ih ⟨it, hmem', hid, hlen⟩]

theorem find_first (item_id : Int) (a : Item) (ha : a.id = item_id) :
    ∀ l1 l2 : List Item, (∀ b ∈ l1, b.id ≠ item_id) →
      (l1 ++ a :: l2).find? (fun it => it.id == item_id) = some a := by
  intro l1
  induction l1 with
  | nil =>
      intro l2 _
      rw [List.nil_append]
      exact List.find?_cons_of_pos _ (by simp [ha])
  | cons b bs ih =>
      intro l2 h
      have hb : (b.id == item_id) = false := by
        have hne := h b (List.mem_cons_self b bs)
        simp [hne]
      rw [List.cons_append]
      simp only [List.find?_cons, hb]
      exact ih l2 (fun x hx => h x (List.mem_cons_of_mem b hx))

theorem get_similar_eq (s : Similarity) (item_id : Int) (qi : Item)
    (hfind : s.items.find? (fun it => it.id == item_id) = some qi)
    (cands : List SimilarityArrayObject) (hc : computeCands s qi s.items = .ok cands) :
    s.get_similar item_id = .ok ((isort sortLe cands).take 5) := by
  unfold Similarity.get_similar
  simp only [hfind, hc]

/-! ## Reading the round-to-nearest predicates over the reals -/

theorem isNearestFrac_spec (num den : Int) (e : ℕ) (m : Int)
    (h : isNearestFrac num den e m) :
    |(num : ℝ) / (den : ℝ) * 2 ^ e - (m : ℝ)| < 1 / 2 := by
  obtain ⟨hden, habs⟩ := h
  have hdenR : (0 : ℝ) < (den : ℝ) := by exact_mod_cast hden
  have habsR : |2 * (num : ℝ) * 2 ^ e - 2 * (m : ℝ) * (den : ℝ)| < (den : ℝ) := by
    exact_mod_cast habs
  have key : (num : ℝ) / (den : ℝ) * 2 ^ e - (m : ℝ) =
      (2 * (num : ℝ) * 2 ^ e - 2 * (m : ℝ) * (den : ℝ)) / (2 * (den : ℝ)) := by
    field_simp
    ring
  rw [key, abs_div, abs_of_pos (by positivity : (0 : ℝ) < 2 * (den : ℝ)),
    div_lt_iff₀ (by positivity)]
  calc |2 * (num : ℝ) * 2 ^ e - 2 * (m : ℝ) * (den : ℝ)| < (den : ℝ) := habsR
    _ = 1 / 2 * (2 * (den : ℝ)) := by ring

theorem isNearestSqrt_spec (x e : ℕ) (m : Int) (h : isNearestSqrt x e m) :
    |Real.sqrt (x : ℝ) * 2 ^ e - (m : ℝ)| < 1 / 2 := by
  obtain ⟨hm, h1, h2⟩ := h
  have hmR : (1 : ℝ) ≤ (m : ℝ) := by exact_mod_cast hm
  have h1R : (2 * (m : ℝ) - 1) ^ 2 < 4 * (x : ℝ) * 4 ^ e := by exact_mod_cast h1
  have h2R : 4 * (x : ℝ) * 4 ^ e < (2 * (m : ℝ) + 1) ^ 2 := by exact_mod_cast h2
  have hs0 : (0 : ℝ) ≤ Real.sqrt (x : ℝ) * 2 ^ e := by positivity
  have hsq : (Real.sqrt (x : ℝ) * 2 ^ e) ^ 2 = (x : ℝ) * 4 ^ e := by
    rw [mul_pow, Real.sq_sqrt (by positivity : (0 : ℝ) ≤ (x : ℝ))]
    congr 1
    rw [← pow_mul, mul_comm e 2, pow_mul]
    norm_num
  rw [abs_lt]
  constructor
  · nlinarith [hs0, hsq, h1R, hmR]
  · nlinarith [hs0, hsq, h2R, hmR]


/-! ## Claim theorems -/

/-- Claim C1: for every catalog and query identifier present in the
catalog (with well-formed, equal-length rating vectors), `get_similar`
never includes the query item itself (compared by identifier), returns
at most 5 results, and returns exactly `min 5 k` results where `k` is
the number of catalog items other than the query item — it never pads
and never errors in that case. -/
theorem claim_C1 (s : Similarity) (item_id : Int) (qi : Item)
    (hfind : s.items.find? (fun it => it.id == item_id) = some qi)
    (hlen : ∀ it ∈ s.items, it.rating.length = qi.rating.length) :
    ∃ res, s.get_similar item_id = .ok res ∧
      (∀ r ∈ res, r.id ≠ item_id) ∧
      res.length = min 5 (s.items.filter (fun it => !(it.id == item_id))).length := by
  obtain ⟨cands, hc, hclen⟩ := computeCands_ok_len s qi s.items hlen
  have hq : qi.id = item_id := by
    have h1 := List.find?_some hfind
    simpa using h1
  refine ⟨(isort sortLe cands).take 5, get_similar_eq s item_id qi hfind cands hc, ?_, ?_⟩
  · intro r hr
    have hr1 : r ∈ isort sortLe cands := List.take_subset 5 _ hr
    have hr2 : r ∈ cands := (isort_perm sortLe cands).mem_iff.mp hr1
    rw [← hq]
    exact computeCands_ok_mem s qi s.items cands hc r hr2
  · rw [List.length_take, (isort_perm sortLe cands).length_eq, hclen]
    simp only [hq]

/-- Claim C2: every successful `get_similar` result is sorted in
descending order of similarity: for each adjacent pair the first score
is `>=` the second, except that a pair that compares as incomparable
(a NaN score) is treated as equal, exactly as the comparator's
`unwrap_or(Equal)` does; no error is raised by sorting. -/
theorem claim_C2 (s : Similarity) (item_id : Int) (res : List SimilarityArrayObject)
    (h : s.get_similar item_id = .ok res) :
    List.Chain' descPair res := by
  unfold Similarity.get_similar at h
  cases hfind : s.items.find? (fun it => it.id == item_id) with
  | none => simp only [hfind] at h; exact absurd h (by simp)
  | some qi =>
      simp only [hfind] at h
      cases hc : computeCands s qi s.items with
      | error e => simp only [hc] at h; exact absurd h (by simp)
      | ok cands =>
          simp only [hc] at h
          injection h with h2
          subst h2
          exact ((chain_isort sortLe sortLe_total cands).take 5).imp
            (fun a b hab => sortLe_desc a b hab)

/-- Claim C3: for every catalog and every query identifier that matches
no item of the catalog, `get_similar` fails with a `notFound` error
carrying the identifier rather than returning a result. -/
theorem claim_C3 (s : Similarity) (item_id : Int)
    (h : ∀ it ∈ s.items, it.id ≠ item_id) :
    s.get_similar item_id = .error (.notFound item_id) := by
  have hfind : s.items.find? (fun it => it.id == item_id) = none := by
    rw [List.find?_eq_none]
    intro x hx
    simp [h x hx]
  unfold Similarity.get_similar
  rw [hfind]

/-- Claim C4: for every pair of items with equal-length rating vectors,
`cosine_similarity` succeeds; when either magnitude tests `== 0.0` the
result is exactly `0.0` (not NaN, no error, no division), and otherwise
the result is `dot_product / (magnitude_1 * magnitude_2)`. -/
theorem claim_C4 (s : Similarity) (i1 i2 : Item)
    (h : i1.rating.length = i2.rating.length) :
    ∃ v, s.cosine_similarity i1 i2 = .ok v ∧
      (((s.magnitude i1).isZero || (s.magnitude i2).isZero) = true →
        v ≠ F64.nan ∧ F64.toReal v = 0) ∧
      (((s.magnitude i1).isZero || (s.magnitude i2).isZero) = false →
        v = F64.div (F64.ofInt (dotRaw i1.rating i2.rating))
              (F64.mul (s.magnitude i1) (s.magnitude i2))) := by
  refine ⟨_, cosine_ok_of_len s i1 i2 h, ?_, ?_⟩
  · intro hz
    rw [if_pos hz]
    exact ⟨by simp [F64.zero], by simp [F64.zero, F64.toReal]⟩
  · intro hz
    rw [if_neg (by simp [hz])]

/-- Claim C5: a pair of items with rating vectors of different lengths
makes `dot_product` fail with `lengthMismatch` and `cosine_similarity`
propagate that same error; and a `get_similar` query whose catalog
contains any non-skipped item whose rating length differs from the
query item's fails with `lengthMismatch` instead of returning a
value. -/
theorem claim_C5 (i1 i2 : Item) (hne : i1.rating.length ≠ i2.rating.length) :
    (∀ s : Similarity, s.dot_product i1 i2 = .error .lengthMismatch ∧
      s.cosine_similarity i1 i2 = .error .lengthMismatch) ∧
    (∀ (s : Similarity) (item_id : Int) (qi : Item),
      s.items.find? (fun it => it.id == item_id) = some qi →
      (∃ it ∈ s.items, (it.id == qi.id) = false ∧ it.rating.length ≠ qi.rating.length) →
      s.get_similar item_id = .error .lengthMismatch) := by
  constructor
  · intro s
    constructor
    · unfold Similarity.dot_product
      rw [if_pos hne]
    · exact cosine_err_of_len s i1 i2 hne
  · intro s item_id qi hfind hex
    unfold Similarity.get_similar
    simp only [hfind]
    rw [computeCands_err s qi s.items hex]

/-- Claim C6 counterexample: the claim "magnitude(v) == 0 iff every
element of v is 0" (and "magnitude is the square root of the sum of
squares") fails on the rating vector `[65536]`: the `i32` square
`65536 * 65536` wraps to 0, so the computed magnitude is exactly 0
although the vector is not all-zero and the true square root of the sum
of squares is 65536. -/
theorem claim_C6_counterexample :
    F64.toReal (Similarity.magnitude ⟨[], []⟩ (mkItem [65536])) = 0 ∧
    (65536 : Int) ≠ 0 ∧
    Real.sqrt (((([(65536 : Int)].map (fun x => x * x)).sum : Int) : ℝ)) = 65536 := by
  refine ⟨?_, by norm_num, ?_⟩
  · have h : Similarity.magnitude ⟨[], []⟩ (mkItem [65536]) = F64.sq 1 1 0 := by decide
    rw [h]
    simp [F64.toReal]
  · have h : (([(65536 : Int)].map (fun x => x * x)).sum : Int) = 4294967296 := by norm_num
    rw [h]
    have h2 : ((4294967296 : Int) : ℝ) = (65536 : ℝ) ^ 2 := by norm_num
    rw [h2, Real.sqrt_sq (by norm_num : (0 : ℝ) ≤ 65536)]

/-- Claim C6 (amended): for every item whose squared ratings and their
running sums stay inside the `i32` range, `magnitude` is the square
root of the sum of squares of the rating vector, it is not NaN, it is
nonnegative, it is 0 iff every element is 0, and it is 0 on the empty
vector. -/
theorem claim_C6 (s : Similarity) (i : Item) (h : sqSumFits i.rating = true) :
    s.magnitude i ≠ F64.nan ∧
    F64.toReal (s.magnitude i) = Real.sqrt (((i.rating.map (fun x => x * x)).sum : Int) : ℝ) ∧
    0 ≤ F64.toReal (s.magnitude i) ∧
    (F64.toReal (s.magnitude i) = 0 ↔ ∀ x ∈ i.rating, x = 0) ∧
    (i.rating = [] → F64.toReal (s.magnitude i) = 0) := by
  have hsum := sumSquares_exact i.rating h
  have hS0 : 0 ≤ (i.rating.map (fun x => x * x)).sum := sum_sq_nonneg i.rating
  have hmag : s.magnitude i = F64.sq 1 1 ((i.rating.map (fun x => x * x)).sum).toNat := by
    unfold Similarity.magnitude F64.sqrtInt
    rw [hsum, if_neg (by omega)]
  have hcast : ((((i.rating.map (fun x => x * x)).sum).toNat : ℕ) : ℝ) =
      (((i.rating.map (fun x => x * x)).sum : Int) : ℝ) := by
    exact_mod_cast congrArg (fun z : Int => (z : ℝ)) (Int.toNat_of_nonneg hS0)
  have htoReal : F64.toReal (s.magnitude i) =
      Real.sqrt (((i.rating.map (fun x => x * x)).sum : Int) : ℝ) := by
    rw [hmag]
    simp only [F64.toReal]
    rw [hcast]
    norm_num
  refine ⟨by rw [hmag]; simp, htoReal, by rw [htoReal]; exact Real.sqrt_nonneg _, ?_, ?_⟩
  · rw [htoReal, Real.sqrt_eq_zero']
    constructor
    · intro hle
      have h1 : (i.rating.map (fun x => x * x)).sum ≤ 0 := by exact_mod_cast hle
      have h2 : (i.rating.map (fun x => x * x)).sum = 0 := le_antisymm h1 hS0
      exact (sum_sq_eq_zero_iff i.rating).mp h2
    · intro hall
      have h2 : (i.rating.map (fun x => x * x)).sum = 0 :=
        (sum_sq_eq_zero_iff i.rating).mpr hall
      rw [h2]
      norm_num
  · intro hempty
    rw [htoReal, hempty]
    simp

set_option maxRecDepth 8000

/-- Claim C7 counterexample: the claim "cosine_similarity(i, i) == 1.0
exactly" is false of the program's IEEE binary64 arithmetic at the item
with ratings `[1, 1]` (a vector with nonzero, non-NaN magnitude).  The
program computes `2.0 / (fl(sqrt 2) * fl(sqrt 2))`; rounding each step
to nearest gives `fl(sqrt 2) = 6369051672525773 * 2^(-52)`, then
`fl(fl(sqrt 2)^2) = (2^52 + 1) * 2^(-51)`, and the final quotient
rounds to `(2^53 - 2) * 2^(-53) = 0.9999999999999998 ≠ 1.0`.  Each
rounding is pinned down by a strict half-ulp inequality
(`isNearestSqrt` / `isNearestFrac`, read over ℝ by their `_spec`
lemmas), and the first conjuncts show the program reaches exactly this
division (dot product 2, magnitudes neither zero nor NaN). -/
theorem claim_C7_counterexample :
    dotRaw [1, 1] [1, 1] = 2 ∧ sumSquares [1, 1] = 2 ∧
    Similarity.magnitude ⟨[], []⟩ (mkItem [1, 1]) ≠ F64.nan ∧
    (Similarity.magnitude ⟨[], []⟩ (mkItem [1, 1])).isZero = false ∧
    isNearestSqrt 2 52 6369051672525773 ∧
    isNearestFrac (6369051672525773 ^ 2) (2 ^ 104) 51 (2 ^ 52 + 1) ∧
    isNearestFrac (2 ^ 52) (2 ^ 52 + 1) 53 (2 ^ 53 - 2) ∧
    (2 ^ 53 - 2 : Int) ≠ 2 ^ 53 ∧
    ((2 ^ 53 - 2 : Int) : ℝ) / 2 ^ 53 ≠ 1 := by
  refine ⟨by decide, by decide, by decide, by decide,
    ⟨by decide, by decide, by decide⟩,
    ⟨by decide, by decide⟩,
    ⟨by decide, by decide⟩,
    by decide, by norm_num⟩

/-- Claim C7 (amended): for every item whose magnitude is a nonzero
real number (not the `0.0` float and not NaN), `cosine_similarity` of
the item with itself succeeds and yields exactly 1 in exact real
arithmetic: the computed value is `s / (sqrt s * sqrt s)` with `s` the
wrapped sum of squares.  Under IEEE binary64 rounding the program's
result can differ from `1.0` (see `claim_C7_counterexample`), so the
original "== 1.0 exactly" holds only up to rounding. -/
theorem claim_C7 (s : Similarity) (i : Item)
    (h1 : s.magnitude i ≠ F64.nan) (h2 : (s.magnitude i).isZero = false) :
    ∃ v, s.cosine_similarity i i = .ok v ∧ v ≠ F64.nan ∧ F64.toReal v = 1 := by
  have hS : ¬ sumSquares i.rating < 0 := by
    intro hlt
    apply h1
    unfold Similarity.magnitude F64.sqrtInt
    rw [if_pos hlt]
  have hmag : s.magnitude i = F64.sq 1 1 (sumSquares i.rating).toNat := by
    unfold Similarity.magnitude F64.sqrtInt
    rw [if_neg hS]
  have hn : (sumSquares i.rating).toNat ≠ 0 := by
    intro h0
    rw [hmag] at h2
    unfold F64.isZero at h2
    rw [h0] at h2
    simp at h2
  have hSn : sumSquares i.rating = ((sumSquares i.rating).toNat : Int) :=
    (Int.toNat_of_nonneg (not_lt.mp hS)).symm
  have hcos : s.cosine_similarity i i =
      .ok (F64.div (F64.ofInt (dotRaw i.rating i.rating))
            (F64.mul (s.magnitude i) (s.magnitude i))) := by
    rw [cosine_ok_of_len s i i rfl, if_neg (by simp [h2])]
  have key : ∀ n : ℕ, n ≠ 0 →
      F64.div (F64.ofInt (n : Int)) (F64.mul (F64.sq 1 1 n) (F64.sq 1 1 n)) ≠ F64.nan ∧
      F64.toReal (F64.div (F64.ofInt (n : Int)) (F64.mul (F64.sq 1 1 n) (F64.sq 1 1 n))) = 1 := by
    intro n hn0
    have hcomp : F64.div (F64.ofInt (n : Int)) (F64.mul (F64.sq 1 1 n) (F64.sq 1 1 n)) =
        F64.sq ((n : Int) * (1 * 1)) (1 * (1 * 1) * ((n * n : ℕ) : Int)) (1 * (n * n)) := by
      simp only [F64.ofInt, F64.mul, F64.div]
      rw [if_neg (by simp [hn0])]
    constructor
    · rw [hcomp]
      simp
    · rw [hcomp]
      simp only [F64.toReal]
      have hnR : (n : ℝ) ≠ 0 := by exact_mod_cast hn0
      have hsq : ((1 * (n * n) : ℕ) : ℝ) = (n : ℝ) * (n : ℝ) := by push_cast; ring
      rw [hsq, Real.sqrt_mul_self (by positivity)]
      have hnum : (((n : Int) * (1 * 1) : Int) : ℝ) = (n : ℝ) := by push_cast; ring
      have hden : ((1 * (1 * 1) * ((n * n : ℕ) : Int) : Int) : ℝ) = (n : ℝ) * n := by
        push_cast; ring
      rw [hnum, hden]
      field_simp
  set n := (sumSquares i.rating).toNat with hn_def
  have hkey := key n hn
  refine ⟨_, hcos, ?_, ?_⟩
  · rw [hmag, dotRaw_self, hSn]
    exact hkey.1
  · rw [hmag, dotRaw_self, hSn]
    exact hkey.2


/-- Claim C8: `dot_product` is commutative (for every pair of items,
in particular every equal-length pair), and on equal-length rating
vectors it returns the `i32`-wrapped sum over paired elements of their
(`i32`-wrapped) products; it is a pure function of its arguments. -/
theorem claim_C8 (s : Similarity) (i1 i2 : Item) :
    s.dot_product i1 i2 = s.dot_product i2 i1 ∧
    (i1.rating.length = i2.rating.length →
      s.dot_product i1 i2 =
        .ok (wrap32 (((i1.rating.zip i2.rating).map (fun p => wrap32 (p.1 * p.2))).sum))) := by
  constructor
  · unfold Similarity.dot_product
    by_cases h : i1.rating.length = i2.rating.length
    · rw [if_neg (by simp [h]), if_neg (by simp [h]), dotRaw_comm]
    · rw [if_pos h, if_pos (fun hEq => h hEq.symm)]
  · intro h
    unfold Similarity.dot_product
    rw [if_neg (by simp [h]), dotRaw_eq_wrapSum]

/-- Claim C9: intermediate arithmetic in `dot_product` and `magnitude`
is wrapping `i32` arithmetic: sums and products reduce modulo 2^32 into
`[-2^31, 2^31)`; the real-number results are obtained exactly when all
products and partial sums fit in `i32`; and concretely, the rating
vector `[46341]` makes `dot_product` return a negative wrapped value
for a positive true product and makes `magnitude` return NaN from the
negative wrapped sum of squares. -/
theorem claim_C9 :
    (∀ a b : List Int, dotFits a b = true →
      dotRaw a b = ((a.zip b).map (fun p => p.1 * p.2)).sum) ∧
    (∀ v : List Int, sqSumFits v = true →
      sumSquares v = (v.map (fun x => x * x)).sum) ∧
    (∀ x : Int, wrap32 x % 4294967296 = x % 4294967296 ∧
      -2147483648 ≤ wrap32 x ∧ wrap32 x < 2147483648) ∧
    ((46341 : Int) * 46341 = 2147488281 ∧ dotRaw [46341] [46341] = -2147479015) ∧
    Similarity.magnitude ⟨[], []⟩ (mkItem [46341]) = F64.nan := by
  exact ⟨dotRaw_exact, sumSquares_exact, wrap32_range, ⟨by norm_num, by decide⟩, by decide⟩

/-- Claim C10: when the catalog contains several items bearing the
query identifier, `get_similar` resolves the query item to the first
such item in catalog order (the behavior of `find`), and every item
whose identifier equals the query identifier is skipped, so no item
bearing the query identifier ever appears in the result. -/
theorem claim_C10 (s : Similarity) (item_id : Int) (l1 l2 : List Item) (a : Item)
    (hsplit : s.items = l1 ++ a :: l2) (ha : a.id = item_id)
    (hl1 : ∀ b ∈ l1, b.id ≠ item_id) :
    s.items.find? (fun it => it.id == item_id) = some a ∧
    ∀ res, s.get_similar item_id = .ok res → ∀ r ∈ res, r.id ≠ item_id := by
  have hfind : s.items.find? (fun it => it.id == item_id) = some a := by
    rw [hsplit]
    exact find_first item_id a ha l1 l2 hl1
  refine ⟨hfind, ?_⟩
  intro res hres r hr
  unfold Similarity.get_similar at hres
  simp only [hfind] at hres
  cases hc : computeCands s a s.items with
  | error e => simp only [hc] at hres; exact absurd hres (by simp)
  | ok cands =>
      simp only [hc] at hres
      injection hres with h2
      subst h2
      have hr1 : r ∈ isort sortLe cands := List.take_subset 5 _ hr
      have hr2 : r ∈ cands := (isort_perm sortLe cands).mem_iff.mp hr1
      rw [← ha]
      exact computeCands_ok_mem s a s.items cands hc r hr2

/-! ## Witnesses: each claim theorem applied at a concrete input -/

/-- Witness for C1: querying id 1 in the concrete three-item catalog
returns exactly the two other items. -/
theorem claim_C1_witness :
    ∃ res, catABC.get_similar 1 = .ok res ∧
      (∀ r ∈ res, r.id ≠ 1) ∧
      res.length = min 5 (catABC.items.filter (fun it => !(it.id == 1))).length :=
  claim_C1 catABC 1 ⟨[1, 0], "A", "", 1⟩ (by decide) (by decide)

/-- Witness for C2: the concrete result of querying id 1 in `catABC` is
chained by `descPair`. -/
theorem claim_C2_witness :
    List.Chain' descPair
      [⟨2, ⟨[1, 1], "B", "", 2⟩, F64.sq 1 2 2, "B"⟩,
       ⟨3, ⟨[0, 1], "C", "", 3⟩, F64.sq 0 1 1, "C"⟩] :=
  claim_C2 catABC 1
    [⟨2, ⟨[1, 1], "B", "", 2⟩, F64.sq 1 2 2, "B"⟩,
     ⟨3, ⟨[0, 1], "C", "", 3⟩, F64.sq 0 1 1, "C"⟩]
    (by decide)

/-- Witness for C3: identifier 999 is absent from `catABC`. -/
theorem claim_C3_witness : catABC.get_similar 999 = .error (.notFound 999) :=
  claim_C3 catABC 999 (by decide)

/-- Witness for C4: the zero vector `[0, 0]` against `[3, 4]`. -/
theorem claim_C4_witness :
    ∃ v, Similarity.cosine_similarity ⟨[], []⟩ (mkItem [0, 0]) (mkItem [3, 4]) = .ok v ∧
      (((Similarity.magnitude ⟨[], []⟩ (mkItem [0, 0])).isZero ||
          (Similarity.magnitude ⟨[], []⟩ (mkItem [3, 4])).isZero) = true →
        v ≠ F64.nan ∧ F64.toReal v = 0) ∧
      (((Similarity.magnitude ⟨[], []⟩ (mkItem [0, 0])).isZero ||
          (Similarity.magnitude ⟨[], []⟩ (mkItem [3, 4])).isZero) = false →
        v = F64.div (F64.ofInt (dotRaw (mkItem [0, 0]).rating (mkItem [3, 4]).rating))
              (F64.mul (Similarity.magnitude ⟨[], []⟩ (mkItem [0, 0]))
                (Similarity.magnitude ⟨[], []⟩ (mkItem [3, 4])))) :=
  claim_C4 ⟨[], []⟩ (mkItem [0, 0]) (mkItem [3, 4]) (by decide)

/-- Witness for C5: vectors `[1]` and `[1, 2]` mismatch, and the
concrete catalog `catMix` makes the whole query fail. -/
theorem claim_C5_witness :
    Similarity.dot_product ⟨[], []⟩ (mkItem [1]) (mkItem [1, 2]) = .error .lengthMismatch ∧
    Similarity.cosine_similarity ⟨[], []⟩ (mkItem [1]) (mkItem [1, 2]) =
      .error .lengthMismatch ∧
    catMix.get_similar 1 = .error .lengthMismatch := by
  refine ⟨((claim_C5 (mkItem [1]) (mkItem [1, 2]) (by decide)).1 ⟨[], []⟩).1,
    ((claim_C5 (mkItem [1]) (mkItem [1, 2]) (by decide)).1 ⟨[], []⟩).2, ?_⟩
  exact (claim_C5 (mkItem [1]) (mkItem [1, 2]) (by decide)).2 catMix 1 ⟨[1, 0], "A", "", 1⟩
    (by decide) ⟨⟨[1, 2, 3], "D", "", 2⟩, by decide, by decide, by decide⟩

/-- Witness for C6 (amended): the vector `[3, 4]` does not overflow and
its magnitude is the square root of 25. -/
theorem claim_C6_witness :
    sqSumFits (mkItem [3, 4]).rating = true ∧
    (Similarity.magnitude ⟨[], []⟩ (mkItem [3, 4]) ≠ F64.nan ∧
     F64.toReal (Similarity.magnitude ⟨[], []⟩ (mkItem [3, 4])) =
       Real.sqrt ((((mkItem [3, 4]).rating.map (fun x => x * x)).sum : Int) : ℝ) ∧
     0 ≤ F64.toReal (Similarity.magnitude ⟨[], []⟩ (mkItem [3, 4])) ∧
     (F64.toReal (Similarity.magnitude ⟨[], []⟩ (mkItem [3, 4])) = 0 ↔
       ∀ x ∈ (mkItem [3, 4]).rating, x = 0) ∧
     ((mkItem [3, 4]).rating = [] →
       F64.toReal (Similarity.magnitude ⟨[], []⟩ (mkItem [3, 4])) = 0)) :=
  ⟨by decide, claim_C6 ⟨[], []⟩ (mkItem [3, 4]) (by decide)⟩

/-- Witness for C7: the vector `[1]` has magnitude 1 and
self-similarity exactly 1. -/
theorem claim_C7_witness :
    ∃ v, Similarity.cosine_similarity ⟨[], []⟩ (mkItem [1]) (mkItem [1]) = .ok v ∧
      v ≠ F64.nan ∧ F64.toReal v = 1 :=
  claim_C7 ⟨[], []⟩ (mkItem [1]) (by decide) (by decide)

/-- Witness for C8: `dot_product` on `[1, 2]` and `[3, 4]`. -/
theorem claim_C8_witness :
    Similarity.dot_product ⟨[], []⟩ (mkItem [1, 2]) (mkItem [3, 4]) =
      Similarity.dot_product ⟨[], []⟩ (mkItem [3, 4]) (mkItem [1, 2]) ∧
    Similarity.dot_product ⟨[], []⟩ (mkItem [1, 2]) (mkItem [3, 4]) =
      .ok (wrap32 ((((mkItem [1, 2]).rating.zip (mkItem [3, 4]).rating).map
            (fun p => wrap32 (p.1 * p.2))).sum)) :=
  ⟨(claim_C8 ⟨[], []⟩ (mkItem [1, 2]) (mkItem [3, 4])).1,
   (claim_C8 ⟨[], []⟩ (mkItem [1, 2]) (mkItem [3, 4])).2 (by decide)⟩

/-- Witness for C9: the no-overflow conjuncts applied to small concrete
vectors. -/
theorem claim_C9_witness :
    dotRaw [1, 2] [3, 4] = ((([(1 : Int), 2]).zip [(3 : Int), 4]).map (fun p => p.1 * p.2)).sum ∧
    sumSquares [3, 4] = (([(3 : Int), 4]).map (fun x => x * x)).sum :=
  ⟨claim_C9.1 [1, 2] [3, 4] (by decide), claim_C9.2.1 [3, 4] (by decide)⟩

/-- Witness for C10: in `catDup` two items carry id 1; the query
resolves to the first of them and the concrete result contains no item
with id 1. -/
theorem claim_C10_witness :
    catDup.items.find? (fun it => it.id == 1) = some ⟨[1, 0], "A", "", 1⟩ ∧
    ∀ r ∈ [(⟨2, ⟨[1, 1], "C", "", 2⟩, F64.sq 1 2 2, "C"⟩ : SimilarityArrayObject)], r.id ≠ 1 := by
  refine ⟨(claim_C10 catDup 1 [] [⟨[0, 1], "B", "", 1⟩, ⟨[1, 1], "C", "", 2⟩]
      ⟨[1, 0], "A", "", 1⟩ rfl rfl (by simp)).1, ?_⟩
  exact (claim_C10 catDup 1 [] [⟨[0, 1], "B", "", 1⟩, ⟨[1, 1], "C", "", 2⟩]
      ⟨[1, 0], "A", "", 1⟩ rfl rfl (by simp)).2
    [⟨2, ⟨[1, 1], "C", "", 2⟩, F64.sq 1 2 2, "C"⟩] (by decide)
